import Mathlib

/-!
Shallow embedding of the BasketballClicker backend (src/server.js): the
leaderboard merge-upsert, the rank query, the online-presence tracker, the
per-origin rate limiter, and the POST /api/leaderboard handler cascade.
Timestamps are integers (milliseconds, as `Date.now()` yields). JavaScript
`Map`s are modelled as association lists; numeric JSON body fields as
`Option Rat` where `none` stands for an absent / null / NaN / non-numeric
value (everything `Math.floor(v || 0)` turns into 0 via falsiness or that
makes `Math.floor` return NaN-free 0 through the `|| 0` default).
-/

namespace Server

/-- A JavaScript `Map k v` as an association list keyed by strings. -/
def mapGet (k : String) : List (String × Int) → Option Int
  | [] => none
  | (k', v) :: rest => if k' = k then some v else mapGet k rest

/-- `Map.set`: overwrite the existing binding for `k`, or append a new one. -/
def mapSet (k : String) (v : Int) : List (String × Int) → List (String × Int)
  | [] => [(k, v)]
  | (k', v') :: rest => if k' = k then (k, v) :: rest else (k', v') :: mapSet k v rest

/-- Drop leading and trailing whitespace from a character list. -/
def trimList (l : List Char) : List Char :=
  ((l.dropWhile Char.isWhitespace).reverse.dropWhile Char.isWhitespace).reverse

/-- JavaScript `String.prototype.trim` over the character content. -/
def jsTrim (s : String) : String :=
  String.mk (trimList s.data)

/-- JavaScript `String.prototype.toLowerCase` (ASCII range, which is all
the downstream regex accepts). -/
def jsToLower (s : String) : String :=
  String.mk (s.data.map Char.toLower)

/-- One row of the `leaderboard` table (server.js lines 26-35), without the
surrogate `id` column (an implementation detail). -/
structure Row where
  username : String
  best_score : Int
  total_earned : Int
  prestiges : Int
  clicks : Int
  play_time : Int
  updated_at : Int
deriving DecidableEq, Repr

/-- The five numeric fields of a submitted snapshot (`req.body`), each an
optional rational: `none` models absent/null/NaN/non-numeric values. -/
structure Candidate where
  best_score : Option Rat
  total_earned : Option Rat
  prestiges : Option Rat
  clicks : Option Rat
  play_time : Option Rat
deriving DecidableEq, Repr

/-- `Math.floor(v || 0)` as applied on server.js line 129: falsy values
(absent, null, NaN, 0) become 0, a number becomes its floor. -/
def floorField (v : Option Rat) : Int :=
  (v.getD 0).floor

/-- The `VALUES` tuple of the insert (server.js lines 120-121, 129). -/
def newRow (clean : String) (c : Candidate) (now : Int) : Row :=
  { username := clean
    best_score := floorField c.best_score
    total_earned := floorField c.total_earned
    prestiges := floorField c.prestiges
    clicks := floorField c.clicks
    play_time := floorField c.play_time
    updated_at := now }

/-- The `ON CONFLICT ... DO UPDATE SET` clause (server.js lines 122-128):
every numeric column becomes `GREATEST(existing, excluded)`, `updated_at`
becomes `NOW()` unconditionally. -/
def mergeRow (r : Row) (c : Candidate) (now : Int) : Row :=
  { r with
    best_score := max r.best_score (floorField c.best_score)
    total_earned := max r.total_earned (floorField c.total_earned)
    prestiges := max r.prestiges (floorField c.prestiges)
    clicks := max r.clicks (floorField c.clicks)
    play_time := max r.play_time (floorField c.play_time)
    updated_at := now }

/-- The whole upsert statement (server.js lines 119-130) against a table
modelled as a list of rows: insert when no row carries the username,
otherwise update every row that does (the UNIQUE constraint keeps that to
at most one in a well-formed table). -/
def mergeUpsert (clean : String) (c : Candidate) (now : Int) (db : List Row) : List Row :=
  if db.any (fun r => r.username = clean) then
    db.map (fun r => if r.username = clean then mergeRow r c now else r)
  else
    db ++ [newRow clean c now]

/-- The JS regex test `/^[a-z0-9_]+$/` together with the length bounds of
server.js line 115, applied to the cleaned (trimmed, lowercased) name. -/
def validClean (s : String) : Bool :=
  1 ≤ s.length && s.length ≤ 20 && s.toList.all (fun ch => ch.isLower || ch.isDigit || ch = '_')

/-- Presence count shared by POST /api/ping and GET /api/online
(server.js lines 51-53 and 59-61): entries with `t > now - 60000`. -/
def countOnline (now : Int) (m : List (String × Int)) : Nat :=
  (m.filter (fun p => p.2 > now - 60000)).length

/-- POST /api/ping (server.js lines 48-55): `username` is `none` when the
body field is absent or not a string; a truthy (non-empty) string is
recorded under its trimmed lowercased form, then the online count is
answered from the possibly updated map. Returns (online, new map). -/
def handlePing (username : Option String) (now : Int) (m : List (String × Int)) :
    Nat × List (String × Int) :=
  let m' := match username with
    | some u => if u ≠ "" then mapSet (jsToLower (jsTrim u)) now m else m
    | none => m
  (countOnline now m', m')

/-- The rate-limiter fragment of POST /api/leaderboard (server.js lines
104-108) in isolation: look up the origin's last accepted time (0 when
absent), reject when strictly inside the 10 s cooldown, otherwise record
`now` and accept. Returns (accepted?, new map). -/
def tryAccept (m : List (String × Int)) (originKey : String) (now : Int) :
    Bool × List (String × Int) :=
  let last := (mapGet originKey m).getD 0
  if now - last < 10000 then (false, m)
  else (true, mapSet originKey now m)

/-- `Math.min(Math.max(parseInt(req.query.limit) || 50, 1), 100)`
(server.js line 69): `none` models a missing or unparseable (NaN) query
value; note that a parsed 0 is falsy and also falls back to 50. -/
def effectiveLimit (q : Option Int) : Int :=
  let n : Int := match q with
    | none => 50
    | some v => if v = 0 then 50 else v
  min (max n 1) 100

/-- Descending insertion by `best_score`, placing a new row after every
existing row with a greater-or-equal score (a stable descending sort, the
determinised stand-in for `ORDER BY best_score DESC`). -/
def insertDesc (r : Row) : List Row → List Row
  | [] => [r]
  | x :: xs => if r.best_score > x.best_score then r :: x :: xs else x :: insertDesc r xs

/-- Stable sort of the table by `best_score` descending. -/
def sortDesc : List Row → List Row
  | [] => []
  | r :: rs => insertDesc r (sortDesc rs)

/-- GET /api/leaderboard (server.js lines 66-79): the rows sorted by
`best_score` descending, truncated to the effective limit. -/
def listTop (q : Option Int) (db : List Row) : List Row :=
  (sortDesc db).take (effectiveLimit q).toNat

/-- The correlated subquery of server.js line 88: `COUNT(*) + 1` over rows
whose `best_score` strictly exceeds the given score. -/
def rankOf (db : List Row) (score : Int) : Nat :=
  (db.filter (fun r => r.best_score > score)).length + 1

/-- GET /api/leaderboard/:username (server.js lines 82-97): the first row
matching the lowercased name, paired with its computed rank. -/
def getByIdentity (uname : String) (db : List Row) : Option (Row × Nat) :=
  let u := jsToLower uname
  match db.find? (fun r => r.username = u) with
  | none => none
  | some r => some (r, rankOf db r.best_score)

/-- Count of distinct identities owning a strictly greater `best_score`:
the spec-side reading of the rank ("1 + count of distinct identities"). -/
def distinctGreater (db : List Row) (score : Int) : Nat :=
  (((db.filter (fun r => r.best_score > score)).map Row.username).dedup).length

/-- The mutable state POST /api/leaderboard touches: whether a pool was
configured, whether the storage backend currently succeeds (a failing
query throws and is answered with 500), the rate-limit map and the table. -/
structure ServerState where
  hasPool : Bool
  storageOk : Bool
  submitTimes : List (String × Int)
  db : List Row
deriving DecidableEq, Repr

/-- A submission request: the derived origin key (x-forwarded-for or peer
address), the raw `username` body field (`none` for absent or non-string)
and the numeric snapshot fields. -/
structure SubmitReq where
  ip : String
  username : Option String
  candidate : Candidate
deriving DecidableEq, Repr

/-- The HTTP statuses POST /api/leaderboard can answer with. -/
inductive SubmitResp
  | s503
  | s429
  | s400
  | s500
  | s200
deriving DecidableEq, Repr

/-- Whether the raw `username` body value reaches the 400 branch: absent,
non-string, falsy empty string, or a cleaned form failing the shape test
(server.js lines 113-116). -/
def usernameBad (username : Option String) : Bool :=
  match username with
  | none => true
  | some u => u = "" || !(validClean (jsToLower (jsTrim u)))

/-- POST /api/leaderboard (server.js lines 100-136): the cascade of
checks in source order — missing pool (503), cooldown (429, rate map
untouched), record `now` for the origin, username shape (400), then the
upsert (200, or 500 leaving the table untouched when the query throws). -/
def handleSubmit (st : ServerState) (req : SubmitReq) (now : Int) :
    SubmitResp × ServerState :=
  if st.hasPool = false then (.s503, st)
  else
    let last := (mapGet req.ip st.submitTimes).getD 0
    if now - last < 10000 then (.s429, st)
    else
      let st1 := { st with submitTimes := mapSet req.ip now st.submitTimes }
      match req.username with
      | none => (.s400, st1)
      | some u =>
        if u = "" then (.s400, st1)
        else
          let clean := jsToLower (jsTrim u)
          if validClean clean = false then (.s400, st1)
          else if st1.storageOk then
            (.s200, { st1 with db := mergeUpsert clean req.candidate now st1.db })
          else (.s500, st1)

/-- The five numeric columns paired with the body fields that feed them,
in table order: a device to quantify a statement over all five fields. -/
def fieldPairs : List ((Row → Int) × (Candidate → Option Rat)) :=
  [(Row.best_score, Candidate.best_score),
   (Row.total_earned, Candidate.total_earned),
   (Row.prestiges, Candidate.prestiges),
   (Row.clicks, Candidate.clicks),
   (Row.play_time, Candidate.play_time)]

/-- A sequence of accepted submissions folded through the conflict-update
branch of the upsert. -/
def applyMerges (r : Row) (l : List (Candidate × Int)) : Row :=
  l.foldl (fun r' p => mergeRow r' p.1 p.2) r

/-- A candidate whose only numeric field is a negative best score. -/
def negCand : Candidate :=
  { best_score := some (-1), total_earned := none, prestiges := none,
    clicks := none, play_time := none }

/-- A candidate with every body field absent. -/
def cand0 : Candidate :=
  { best_score := none, total_earned := none, prestiges := none,
    clicks := none, play_time := none }

/-- A leaderboard row with the given name and best score and zeroes
elsewhere, for concrete tables. -/
def mkRow (u : String) (s : Int) : Row :=
  { username := u, best_score := s, total_earned := 0, prestiges := 0,
    clicks := 0, play_time := 0, updated_at := 0 }

/-- The spec's rank example: best scores 100, 80, 80, 50. -/
def db4 : List Row :=
  [mkRow "a" 100, mkRow "b" 80, mkRow "c" 80, mkRow "d" 50]

/-- A two-row table for exercising the limit clamping. -/
def db2 : List Row :=
  [mkRow "p" 3, mkRow "q" 9]

lemma mapGet_mapSet_self (k : String) (v : Int) (m : List (String × Int)) :
    mapGet k (mapSet k v m) = some v := by
  induction m with
  | nil => simp [mapSet, mapGet]
  | cons p rest ih =>
    rcases p with ⟨k', v'⟩
    by_cases h : k' = k
    · simp [mapSet, mapGet, h]
    · simp [mapSet, mapGet, h, ih]

/-- Claim C4 counterexample: with an empty rate-limit map (no entry for the
origin at all) a request at time 0 is still rejected, because the absent
entry is read as `0` by `submitTimes.get(ip) || 0` and `0 - 0 < 10000`;
the claim's "rejects exactly when an entry exists and ..." is false. -/
theorem claim_C4_counterexample :
    (tryAccept [] "1.2.3.4" 0).1 = false ∧ mapGet "1.2.3.4" [] = none := by
  decide

/-- Claim C4, amended: `tryAccept` rejects exactly when `now` minus the
stored last-accepted time — read as 0 when no entry exists — is strictly
below 10000 ms; whenever `now ≥ 10000` (true of every real clock reading)
this coincides with the claim's "an entry exists and is fresher than the
cooldown"; on acceptance `now` is recorded for the origin, and a follow-up
submission from the same origin is rejected iff it comes strictly within
10 s of the recorded one. -/
theorem claim_C4_rate_limit_amended (m : List (String × Int)) (k : String) (now : Int) :
    ((tryAccept m k now).1 = false ↔ now - ((mapGet k m).getD 0) < 10000) ∧
    (10000 ≤ now →
      ((tryAccept m k now).1 = false ↔ ∃ t, mapGet k m = some t ∧ now - t < 10000)) ∧
    ((tryAccept m k now).1 = true → (tryAccept m k now).2 = mapSet k now m) ∧
    (∀ t2, (tryAccept (mapSet k now m) k t2).1 = false ↔ t2 - now < 10000) := by
  refine ⟨?_, ?_, ?_, ?_⟩
  · by_cases h : now - ((mapGet k m).getD 0) < 10000 <;> simp [tryAccept, h]
  · intro hnow
    cases hm : mapGet k m with
    | none =>
      constructor
      · intro h
        exfalso
        have hc : ¬ (now - ((mapGet k m).getD 0) < 10000) := by
          rw [hm]
          simp only [Option.getD_none]
          omega
        simp [tryAccept, hc] at h
      · rintro ⟨t, ht, -⟩
        cases ht
    | some t =>
      by_cases hc : now - t < 10000 <;> simp [tryAccept, hm, hc]
  · intro h
    by_cases hc : now - ((mapGet k m).getD 0) < 10000
    · simp [tryAccept, hc] at h
    · simp [tryAccept, hc]
  · intro t2
    by_cases hc : t2 - now < 10000 <;>
      simp [tryAccept, mapGet_mapSet_self, hc]

/-- Claim C4 witness: a concrete instantiation of the amended rate-limit
characterization at `now = 20000` over a map holding one entry. -/
theorem claim_C4_witness :
    ((tryAccept [("a", 15000)] "a" 20000).1 = false ↔
      (20000 : Int) - ((mapGet "a" [("a", 15000)]).getD 0) < 10000) ∧
    ((tryAccept [("a", 15000)] "a" 20000).1 = false ↔
      ∃ t, mapGet "a" [("a", 15000)] = some t ∧ (20000 : Int) - t < 10000) := by
  refine ⟨(claim_C4_rate_limit_amended [("a", 15000)] "a" 20000).1, ?_⟩
  exact (claim_C4_rate_limit_amended [("a", 15000)] "a" 20000).2.1 (by decide)

/-- Claim C5 counterexample: an entry whose timestamp is exactly 60 seconds
old (`now − t = 60000 ≤ 60000`) is NOT counted, because the code tests
`t > now - 60000` strictly; the claim's inclusive boundary is false. -/
theorem claim_C5_counterexample :
    countOnline 60000 [("bob", 0)] = 0 ∧ (60000 : Int) - 0 ≤ 60000 := by
  decide

/-- Claim C5, amended: `countOnline` counts the presence entries strictly
inside the window — those with `now − t < 60000` — and an entry sitting
exactly on the 60-second boundary contributes nothing to the count. -/
theorem claim_C5_count_online_amended (now : Int) (m : List (String × Int)) :
    countOnline now m = (m.filter (fun p => now - p.2 < 60000)).length ∧
    ∀ u, countOnline now ((u, now - 60000) :: m) = countOnline now m := by
  constructor
  · unfold countOnline
    congr 1
    apply List.filter_congr
    intro p _
    simp only [decide_eq_decide]
    omega
  · intro u
    simp [countOnline]

/-- Claim C9 counterexample: a whitespace-only username is a truthy string,
so the code records a presence entry under the empty normalized key — the
map grows and the reported count includes it, contradicting "records
nothing" for a whitespace-only name. -/
theorem claim_C9_counterexample :
    handlePing (some " ") 5 [] = (1, [("", 5)]) ∧
    ([("", 5)] : List (String × Int)) ≠ [] := by
  decide

/-- Claim C9, amended: the ping handler records an entry exactly when the
raw body value is a present, non-empty string (the code tests the raw
string for truthiness, not the normalized form); the key is the trimmed
lowercased name, which may be empty; absent, non-string and empty-string
values record nothing; in every case the response is the online count of
the resulting map. -/
theorem claim_C9_record_ping_amended (now : Int) (m : List (String × Int)) :
    handlePing none now m = (countOnline now m, m) ∧
    handlePing (some "") now m = (countOnline now m, m) ∧
    (∀ u, u ≠ "" →
      handlePing (some u) now m =
        (countOnline now (mapSet (jsToLower (jsTrim u)) now m),
         mapSet (jsToLower (jsTrim u)) now m)) := by
  refine ⟨rfl, rfl, ?_⟩
  intro u hu
  simp [handlePing, hu]

/-- Claim C9 witness: the amended ping contract instantiated at the
username "Bob" over the empty presence map. -/
theorem claim_C9_witness :
    handlePing (some "Bob") 7 [] =
      (countOnline 7 (mapSet (jsToLower (jsTrim "Bob")) 7 []),
       mapSet (jsToLower (jsTrim "Bob")) 7 []) := by
  exact (claim_C9_record_ping_amended 7 []).2.2 "Bob" (by decide)

/-- Claim C2 counterexample: a candidate carrying a negative best score is
stored as its (negative) floor, not clamped to 0 — `Math.floor(v || 0)`
only defaults falsy values, it never clamps. -/
theorem claim_C2_counterexample :
    mergeUpsert "eve" negCand 0 [] = [newRow "eve" negCand 0] ∧
    (newRow "eve" negCand 0).best_score = -1 ∧
    (newRow "eve" negCand 0).best_score ≠ 0 := by
  decide

/-- Claim C2, amended: when no record exists for the identity the upsert
appends a fresh row whose five numeric fields are `floor(candidate || 0)`:
a missing or non-numeric field is stored as 0, and a numeric field is
stored as its floor — which is negative for a negative candidate, not
clamped to 0. -/
theorem claim_C2_insert_amended (u : String) (c : Candidate) (t : Int) (db : List Row)
    (h : ∀ r ∈ db, r.username ≠ u) :
    mergeUpsert u c t db = db ++ [newRow u c t] ∧
    (∀ p ∈ fieldPairs, p.1 (newRow u c t) = floorField (p.2 c)) ∧
    floorField none = 0 ∧
    (∀ q : Rat, floorField (some q) = q.floor) := by
  refine ⟨?_, ?_, rfl, fun q => rfl⟩
  · have hany : db.any (fun r => r.username = u) = false := by
      simp only [List.any_eq_false, decide_eq_true_eq]
      exact h
    simp [mergeUpsert, hany]
  · intro p hp
    simp only [fieldPairs, List.mem_cons, List.not_mem_nil, or_false] at hp
    rcases hp with rfl | rfl | rfl | rfl | rfl <;> rfl

/-- Claim C2 witness: the amended insert contract at a concrete empty
table and the negative-scored candidate. -/
theorem claim_C2_witness :
    mergeUpsert "eve2" negCand 3 [] = [] ++ [newRow "eve2" negCand 3] := by
  exact (claim_C2_insert_amended "eve2" negCand 3 [] (by simp)).1

lemma mergeRow_username (r : Row) (c : Candidate) (t : Int) :
    (mergeRow r c t).username = r.username := rfl

lemma newRow_username (u : String) (c : Candidate) (t : Int) :
    (newRow u c t).username = u := rfl

lemma mergeRow_mergeRow (r : Row) (c : Candidate) (t1 t2 : Int) :
    mergeRow (mergeRow r c t1) c t2 = { mergeRow r c t1 with updated_at := t2 } := by
  simp [mergeRow, max_assoc, max_self]

lemma mergeRow_newRow (u : String) (c : Candidate) (t1 t2 : Int) :
    mergeRow (newRow u c t1) c t2 = { newRow u c t1 with updated_at := t2 } := by
  simp [mergeRow, newRow, max_self]

/-- Claim C8 counterexample: resubmitting the identical snapshot after the
cooldown does change the stored record — `updated_at` is rewritten to the
time of the second submission even though every numeric field keeps its
value. -/
theorem claim_C8_counterexample :
    mergeUpsert "a" cand0 10000 (mergeUpsert "a" cand0 0 []) ≠
      mergeUpsert "a" cand0 0 [] := by
  decide

/-- Claim C8, amended: merging the same candidate a second time leaves the
identity and all five numeric fields of every row unchanged; the only
change is that the matching row's `updated_at` becomes the time of the
second submission. -/
theorem claim_C8_idempotent_amended (u : String) (c : Candidate) (t1 t2 : Int)
    (db : List Row) :
    mergeUpsert u c t2 (mergeUpsert u c t1 db) =
      (mergeUpsert u c t1 db).map
        (fun r => if r.username = u then { r with updated_at := t2 } else r) := by
  by_cases hany : db.any (fun r => r.username = u) = true
  · have hany2 :
        (db.map (fun r => if r.username = u then mergeRow r c t1 else r)).any
          (fun r => r.username = u) = true := by
      rw [List.any_map]
      convert hany using 2
      funext r
      by_cases hr : r.username = u <;> simp [Function.comp, hr, mergeRow_username]
    unfold mergeUpsert
    rw [if_pos hany, if_pos hany2, List.map_map, List.map_map]
    apply List.map_congr_left
    intro r _
    by_cases hr : r.username = u
    · simp [Function.comp, hr, mergeRow_username, mergeRow_mergeRow]
    · simp [Function.comp, hr]
  · have hne : ∀ r ∈ db, ¬ (r.username = u) := by
      simpa [List.any_eq_false] using hany
    have hany2 : (db ++ [newRow u c t1]).any (fun r => r.username = u) = true := by
      simp [newRow_username]
    unfold mergeUpsert
    rw [if_neg hany, if_pos hany2, List.map_append, List.map_append]
    congr 1
    · apply List.map_congr_left
      intro r hr
      simp [hne r hr]
    · simp [newRow_username, mergeRow_newRow]

lemma foldl_max_perm {l₁ l₂ : List Int} (h : l₁.Perm l₂) :
    ∀ a : Int, l₁.foldl max a = l₂.foldl max a := by
  induction h with
  | nil => intro a; rfl
  | cons x _ ih => intro a; simpa using ih (max a x)
  | swap x y l => intro a; simp only [List.foldl_cons]; rw [sup_right_comm]
  | trans _ _ ih1 ih2 => intro a; exact (ih1 a).trans (ih2 a)

lemma mergeRow_field (p : (Row → Int) × (Candidate → Option Rat)) (hp : p ∈ fieldPairs)
    (r : Row) (c : Candidate) (t : Int) :
    p.1 (mergeRow r c t) = max (p.1 r) (floorField (p.2 c)) := by
  unfold fieldPairs at hp
  simp only [List.mem_cons, List.not_mem_nil, or_false] at hp
  rcases hp with rfl | rfl | rfl | rfl | rfl <;> rfl

lemma applyMerges_field (p : (Row → Int) × (Candidate → Option Rat)) (hp : p ∈ fieldPairs) :
    ∀ (l : List (Candidate × Int)) (r : Row),
      p.1 (applyMerges r l) =
        (l.map (fun q => floorField (p.2 q.1))).foldl max (p.1 r) := by
  intro l
  induction l with
  | nil => intro r; rfl
  | cons q l ih =>
    intro r
    have hstep : applyMerges r (q :: l) = applyMerges (mergeRow r q.1 q.2) l := rfl
    rw [hstep, ih]
    simp [mergeRow_field p hp]

/-- Claim C1: on an existing record the upsert rewrites exactly the
matching rows through the conflict-update rule; for each of the five
numeric fields that rule yields `max(existing, submitted)`, hence the
stored value never decreases across a merge, a folded sequence of merges
leaves the running maximum of everything ever submitted, and any
permutation of the submission order yields the same stored field. -/
theorem claim_C1_merge_running_max :
    (∀ u c t db, db.any (fun x => x.username = u) = true →
      mergeUpsert u c t db =
        db.map (fun x => if x.username = u then mergeRow x c t else x)) ∧
    (∀ p ∈ fieldPairs,
      (∀ r c t, p.1 r ≤ p.1 (mergeRow r c t) ∧
        p.1 (mergeRow r c t) = max (p.1 r) (floorField (p.2 c))) ∧
      (∀ r (l : List (Candidate × Int)), p.1 (applyMerges r l) =
        (l.map (fun q => floorField (p.2 q.1))).foldl max (p.1 r)) ∧
      (∀ r (l₁ l₂ : List (Candidate × Int)), l₁.Perm l₂ →
        p.1 (applyMerges r l₁) = p.1 (applyMerges r l₂))) := by
  constructor
  · intro u c t db hany
    unfold mergeUpsert
    rw [if_pos hany]
  · intro p hp
    refine ⟨fun r c t => ⟨?_, mergeRow_field p hp r c t⟩,
      fun r l => applyMerges_field p hp l r, ?_⟩
    · rw [mergeRow_field p hp]
      exact le_max_left _ _
    · intro r l₁ l₂ hperm
      rw [applyMerges_field p hp l₁ r, applyMerges_field p hp l₂ r]
      exact foldl_max_perm (hperm.map _) _

/-- Claim C1 witness: the best-score field of one concrete merge is the
maximum of the stored and submitted values. -/
theorem claim_C1_witness :
    Row.best_score (mergeRow (mkRow "w" 7) negCand 5) =
      max (Row.best_score (mkRow "w" 7)) (floorField (Candidate.best_score negCand)) := by
  exact ((claim_C1_merge_running_max.2 (Row.best_score, Candidate.best_score)
    (by unfold fieldPairs; exact List.Mem.head _)).1 (mkRow "w" 7) negCand 5).2

/-- Claim C6: the rank paired with a found record is one plus the number
of distinct identities holding a strictly greater best score — the row
count of the correlated subquery coincides with the identity count because
usernames are unique — and on the spec's example table with best scores
100, 80, 80, 50 both 80-scorers get rank 2. -/
theorem claim_C6_rank_distinct :
    (∀ (db : List Row) (uname : String) (r : Row) (k : Nat),
      (db.map Row.username).Nodup →
      getByIdentity uname db = some (r, k) →
      k = 1 + distinctGreater db r.best_score) ∧
    getByIdentity "b" db4 = some (mkRow "b" 80, 2) ∧
    getByIdentity "c" db4 = some (mkRow "c" 80, 2) := by
  refine ⟨?_, by decide, by decide⟩
  intro db uname r k hnodup hget
  unfold getByIdentity at hget
  cases hfind : db.find? (fun x => x.username = jsToLower uname) with
  | none => simp [hfind] at hget
  | some r' =>
    simp only [hfind] at hget
    injection hget with h
    have hr : r' = r := congrArg Prod.fst h
    have hk : k = rankOf db r.best_score := by
      rw [← hr]
      exact (congrArg Prod.snd h).symm
    have hsub :
        ((db.filter (fun x => x.best_score > r.best_score)).map Row.username).Nodup :=
      hnodup.sublist ((List.filter_sublist db).map Row.username)
    unfold distinctGreater
    rw [List.Nodup.dedup hsub, List.length_map]
    rw [hk]
    unfold rankOf
    omega

/-- Claim C6 witness: the general rank characterization applied to the
example table at identity "c". -/
theorem claim_C6_witness :
    (2 : Nat) = 1 + distinctGreater db4 (Row.best_score (mkRow "c" 80)) := by
  exact claim_C6_rank_distinct.1 db4 "c" (mkRow "c" 80) 2 (by decide) (by decide)

lemma handleSubmit_of_noPool (st : ServerState) (req : SubmitReq) (now : Int)
    (hp : st.hasPool = false) : handleSubmit st req now = (.s503, st) := by
  unfold handleSubmit
  rw [if_pos hp]

lemma handleSubmit_of_cooldown (st : ServerState) (req : SubmitReq) (now : Int)
    (hp : st.hasPool = true)
    (hcool : now - ((mapGet req.ip st.submitTimes).getD 0) < 10000) :
    handleSubmit st req now = (.s429, st) := by
  unfold handleSubmit
  rw [if_neg (by simp [hp]), if_pos hcool]

lemma handleSubmit_of_bad_username (st : ServerState) (req : SubmitReq) (now : Int)
    (hp : st.hasPool = true)
    (hcool : ¬ (now - ((mapGet req.ip st.submitTimes).getD 0) < 10000))
    (hbad : usernameBad req.username = true) :
    handleSubmit st req now =
      (.s400, { st with submitTimes := mapSet req.ip now st.submitTimes }) := by
  unfold handleSubmit
  rw [if_neg (by simp [hp]), if_neg hcool]
  cases hu : req.username with
  | none => rfl
  | some u =>
    rw [hu] at hbad
    have hbad' : (decide (u = "") || !validClean (jsToLower (jsTrim u))) = true := hbad
    by_cases hemp : u = ""
    · simp [hemp]
    · rw [decide_eq_false hemp, Bool.false_or, Bool.not_eq_true'] at hbad'
      simp [hemp, hbad']

lemma handleSubmit_of_good_username (st : ServerState) (req : SubmitReq) (now : Int)
    (u : String) (hp : st.hasPool = true)
    (hcool : ¬ (now - ((mapGet req.ip st.submitTimes).getD 0) < 10000))
    (hu : req.username = some u) (hgood : usernameBad req.username = false) :
    handleSubmit st req now =
      (if st.storageOk then
        (.s200, { st with
          submitTimes := mapSet req.ip now st.submitTimes,
          db := mergeUpsert (jsToLower (jsTrim u)) req.candidate now st.db })
      else
        (.s500, { st with submitTimes := mapSet req.ip now st.submitTimes })) := by
  rw [hu] at hgood
  have hgood' : (decide (u = "") || !validClean (jsToLower (jsTrim u))) = false := hgood
  rw [Bool.or_eq_false_iff] at hgood'
  obtain ⟨hemp0, hval0⟩ := hgood'
  have hemp : ¬ u = "" := by simpa using hemp0
  have hval : validClean (jsToLower (jsTrim u)) = true := by
    cases hvc : validClean (jsToLower (jsTrim u)) with
    | true => rfl
    | false =>
      rw [hvc] at hval0
      simp at hval0
  unfold handleSubmit
  rw [if_neg (by simp [hp]), if_neg hcool, hu]
  by_cases hs : st.storageOk <;> simp [hs, hemp, hval]

/-- Claim C3: the submission handler settles failures in source order —
no pool means 503 with every piece of state (the rate map included)
untouched; inside the cooldown means 429 for every username, good or bad,
with state untouched; past the rate check a malformed username means 400;
and a well-formed one reaches the merge, answering 200 with the table
merged when storage succeeds and 500 with the table untouched when the
query throws. -/
theorem claim_C3_check_order :
    ∀ (st : ServerState) (req : SubmitReq) (now : Int),
      (st.hasPool = false → handleSubmit st req now = (.s503, st)) ∧
      (st.hasPool = true →
        now - ((mapGet req.ip st.submitTimes).getD 0) < 10000 →
        handleSubmit st req now = (.s429, st)) ∧
      (st.hasPool = true →
        ¬ (now - ((mapGet req.ip st.submitTimes).getD 0) < 10000) →
        usernameBad req.username = true →
        handleSubmit st req now =
          (.s400, { st with submitTimes := mapSet req.ip now st.submitTimes })) ∧
      (∀ u, st.hasPool = true →
        ¬ (now - ((mapGet req.ip st.submitTimes).getD 0) < 10000) →
        req.username = some u →
        usernameBad req.username = false →
        handleSubmit st req now =
          (if st.storageOk then
            (.s200, { st with
              submitTimes := mapSet req.ip now st.submitTimes,
              db := mergeUpsert (jsToLower (jsTrim u)) req.candidate now st.db })
          else
            (.s500, { st with submitTimes := mapSet req.ip now st.submitTimes }))) := by
  intro st req now
  exact ⟨handleSubmit_of_noPool st req now,
    handleSubmit_of_cooldown st req now,
    handleSubmit_of_bad_username st req now,
    fun u hp hcool hu hgood =>
      handleSubmit_of_good_username st req now u hp hcool hu hgood⟩

/-- Claim C3 witness: a concrete run of each branch of the ordering
contract — here the cooldown branch, hit with a well-formed username,
showing the rate check fires before the username is even looked at. -/
theorem claim_C3_witness :
    handleSubmit
      { hasPool := true, storageOk := true, submitTimes := [("ip1", 5000)], db := [] }
      { ip := "ip1", username := some "bob", candidate := cand0 } 9000 =
      (.s429,
        { hasPool := true, storageOk := true, submitTimes := [("ip1", 5000)], db := [] }) := by
  exact (claim_C3_check_order
    { hasPool := true, storageOk := true, submitTimes := [("ip1", 5000)], db := [] }
    { ip := "ip1", username := some "bob", candidate := cand0 } 9000).2.1 rfl (by decide)

/-- Claim C10: a submission that passes the rate check records `now` for
its origin before the username is validated, so a 400-rejected malformed
submission still starts the cooldown: any follow-up from the same origin
strictly within 10 seconds is answered 429. -/
theorem claim_C10_cooldown_on_400 :
    ∀ (st : ServerState) (req1 : SubmitReq) (now1 : Int),
      st.hasPool = true →
      ¬ (now1 - ((mapGet req1.ip st.submitTimes).getD 0) < 10000) →
      usernameBad req1.username = true →
      (handleSubmit st req1 now1).1 = .s400 ∧
      mapGet req1.ip (handleSubmit st req1 now1).2.submitTimes = some now1 ∧
      (∀ (req2 : SubmitReq) (now2 : Int), req2.ip = req1.ip →
        now2 - now1 < 10000 →
        (handleSubmit (handleSubmit st req1 now1).2 req2 now2).1 = .s429) := by
  intro st req1 now1 hp hcool hbad
  have h400 := handleSubmit_of_bad_username st req1 now1 hp hcool hbad
  rw [h400]
  refine ⟨rfl, mapGet_mapSet_self req1.ip now1 st.submitTimes, ?_⟩
  intro req2 now2 hip h10
  have hcd : now2 - ((mapGet req2.ip (mapSet req1.ip now1 st.submitTimes)).getD 0) < 10000 := by
    rw [hip, mapGet_mapSet_self]
    simpa using h10
  have hrun := handleSubmit_of_cooldown
    { st with submitTimes := mapSet req1.ip now1 st.submitTimes } req2 now2 hp hcd
  rw [hrun]

/-- Claim C10 witness: a malformed submission from a fresh origin at time
20000 is answered 400 yet records the origin, and a well-formed retry from
the same origin 5 seconds later is answered 429. -/
theorem claim_C10_witness :
    (handleSubmit
      { hasPool := true, storageOk := true, submitTimes := [], db := [] }
      { ip := "ip9", username := some "ab!", candidate := cand0 } 20000).1 = .s400 ∧
    (handleSubmit
      (handleSubmit
        { hasPool := true, storageOk := true, submitTimes := [], db := [] }
        { ip := "ip9", username := some "ab!", candidate := cand0 } 20000).2
      { ip := "ip9", username := some "bob", candidate := cand0 } 25000).1 = .s429 := by
  have h := claim_C10_cooldown_on_400
    { hasPool := true, storageOk := true, submitTimes := [], db := [] }
    { ip := "ip9", username := some "ab!", candidate := cand0 } 20000
    rfl (by decide) (by decide)
  exact ⟨h.1, h.2.2 { ip := "ip9", username := some "bob", candidate := cand0 }
    25000 rfl (by decide)⟩

lemma insertDesc_perm (r : Row) (l : List Row) : (insertDesc r l).Perm (r :: l) := by
  induction l with
  | nil => simp [insertDesc]
  | cons x xs ih =>
    unfold insertDesc
    by_cases h : r.best_score > x.best_score
    · rw [if_pos h]
    · rw [if_neg h]
      exact (ih.cons x).trans (List.Perm.swap r x xs)

lemma sortDesc_perm (l : List Row) : (sortDesc l).Perm l := by
  induction l with
  | nil => exact List.Perm.nil
  | cons r rs ih => exact (insertDesc_perm r (sortDesc rs)).trans (ih.cons r)

lemma insertDesc_pairwise (r : Row) (l : List Row)
    (h : l.Pairwise (fun a b => b.best_score ≤ a.best_score)) :
    (insertDesc r l).Pairwise (fun a b => b.best_score ≤ a.best_score) := by
  induction l with
  | nil => simp [insertDesc]
  | cons x xs ih =>
    rw [List.pairwise_cons] at h
    obtain ⟨hx, hxs⟩ := h
    unfold insertDesc
    by_cases hcmp : r.best_score > x.best_score
    · rw [if_pos hcmp]
      rw [List.pairwise_cons]
      refine ⟨?_, List.pairwise_cons.mpr ⟨hx, hxs⟩⟩
      intro b hb
      rcases List.mem_cons.mp hb with rfl | hb'
      · exact le_of_lt hcmp
      · exact le_trans (hx b hb') (le_of_lt hcmp)
    · rw [if_neg hcmp]
      rw [List.pairwise_cons]
      refine ⟨?_, ih hxs⟩
      intro b hb
      have hb2 : b ∈ r :: xs := (insertDesc_perm r xs).mem_iff.mp hb
      rcases List.mem_cons.mp hb2 with rfl | hb'
      · exact le_of_not_lt hcmp
      · exact hx b hb'

lemma sortDesc_pairwise (l : List Row) :
    (sortDesc l).Pairwise (fun a b => b.best_score ≤ a.best_score) := by
  induction l with
  | nil => simp [sortDesc]
  | cons r rs ih => exact insertDesc_pairwise r (sortDesc rs) ih

/-- Claim C7 counterexample: a requested limit of 0 parses to the falsy
number 0, so `parseInt(...) || 50` falls back to the default 50 before any
clamping happens — a two-row table comes back whole, not truncated to the
single row an effective limit of 1 would leave. -/
theorem claim_C7_counterexample :
    effectiveLimit (some 0) = 50 ∧
    (listTop (some 0) db2).length = 2 ∧
    ¬ (listTop (some 0) db2).length ≤ 1 := by
  decide

/-- Claim C7, amended: the listing is sorted by best score descending and
truncated to the effective limit; the effective limit is 50 for a missing,
unparseable or zero requested value and `min (max v 1) 100` for any other
parsed value `v`, so it always lies in [1, 100] — but a requested 0 maps
to the default 50, not to the clamp's lower bound 1. -/
theorem claim_C7_list_top_amended (q : Option Int) (db : List Row) :
    (listTop q db).Pairwise (fun a b => b.best_score ≤ a.best_score) ∧
    (listTop q db).length = min (effectiveLimit q).toNat db.length ∧
    (sortDesc db).Perm db ∧
    effectiveLimit none = 50 ∧
    effectiveLimit (some 0) = 50 ∧
    (∀ v : Int, v ≠ 0 → effectiveLimit (some v) = min (max v 1) 100) ∧
    (1 ≤ effectiveLimit q ∧ effectiveLimit q ≤ 100) := by
  refine ⟨?_, ?_, sortDesc_perm db, rfl, rfl, ?_, ?_⟩
  · exact List.Pairwise.sublist (List.take_sublist _ _) (sortDesc_pairwise db)
  · rw [listTop, List.length_take, (sortDesc_perm db).length_eq]
  · intro v hv
    simp [effectiveLimit, hv]
  · rcases q with _ | v
    · constructor <;> decide
    · by_cases hv : v = 0
      · subst hv
        constructor <;> decide
      · simp only [effectiveLimit, hv, if_false]
        omega

/-- Claim C7 witness: the amended limit rule evaluated at a parsed
non-zero request of 7. -/
theorem claim_C7_witness :
    effectiveLimit (some 7) = min (max 7 1) 100 := by
  exact (claim_C7_list_top_amended (some 7) db2).2.2.2.2.2.1 7 (by decide)

end Server
